import Mathlib

/-!
Verification of the zenstack-trpc generator (`src/zod-schemas.ts` and
`src/router-generator.ts`): a shallow embedding of the schema-driven
validator factory and the router factory, together with theorems about the
generated validators and dispatch behaviour.

JavaScript values that can reach a validator are modelled by `Value`;
the zod validator combinators actually used by the source are modelled by
`ZodSchema`, with acceptance semantics `accepts` (zod `parse` succeeds).
-/

namespace ZenTrpc

/-- A JavaScript runtime value as seen by a zod validator.
`vUndefined` stands for `undefined` (an absent object key reads as
`undefined`); `vDate` is a (valid) `Date` instance; `vBytes` a
`Uint8Array` instance. Numbers are modelled as integers. -/
inductive Value where
  | vUndefined
  | vNull
  | vStr (s : String)
  | vNum (n : Int)
  | vBigInt (n : Int)
  | vBool (b : Bool)
  | vDate
  | vBytes
  | vArr (xs : List Value)
  | vObj (fields : List (String × Value))
deriving Repr

/-- The zod combinators used by `zod-schemas.ts`. `zStringDatetime` is
`z.string().datetime()`, `zBytes` is `z.instanceof(Uint8Array)`,
`zObject shape pass` is `z.object(shape)` (with `.passthrough()` when
`pass = true`; acceptance of unknown keys is the same either way). -/
inductive ZodSchema where
  | zString
  | zStringDatetime
  | zNumber
  | zBigInt
  | zBoolean
  | zDate
  | zNull
  | zAny
  | zBytes
  | zEnum (vals : List String)
  | zArray (s : ZodSchema)
  | zUnion2 (a b : ZodSchema)
  | zUnion3 (a b c : ZodSchema)
  | zOptional (s : ZodSchema)
  | zNullable (s : ZodSchema)
  | zObject (shape : List (String × ZodSchema)) (pass : Bool)
deriving Repr

/-- Read a key from a JS object: an absent key reads as `undefined`. -/
def lookupD (fields : List (String × Value)) (k : String) : Value :=
  match fields with
  | [] => .vUndefined
  | (k', v) :: rest => if k' = k then v else lookupD rest k

/-- Association-list lookup (JS object property access). -/
def lookupOpt {α : Type} (l : List (String × α)) (k : String) : Option α :=
  match l with
  | [] => none
  | (k', v) :: rest => if k' = k then some v else lookupOpt rest k

def isStr : Value → Bool
  | .vStr _ => true
  | _ => false

def isNum : Value → Bool
  | .vNum _ => true
  | _ => false

def isBigIntV : Value → Bool
  | .vBigInt _ => true
  | _ => false

def isBoolV : Value → Bool
  | .vBool _ => true
  | _ => false

def isDateV : Value → Bool
  | .vDate => true
  | _ => false

def isNullV : Value → Bool
  | .vNull => true
  | _ => false

def isUndef : Value → Bool
  | .vUndefined => true
  | _ => false

def isBytesV : Value → Bool
  | .vBytes => true
  | _ => false

/-- Consume exactly `n` ASCII digits from the front of a char list. -/
def digitsN : Nat → List Char → Option (List Char)
  | 0, cs => some cs
  | _ + 1, [] => none
  | n + 1, c :: cs => if c.isDigit then digitsN n cs else none

/-- Consume one expected character. -/
def expectChar (c : Char) : List Char → Option (List Char)
  | [] => none
  | d :: cs => if d = c then some cs else none

/-- One or more ASCII digits. -/
def digits1 : List Char → Option (List Char)
  | [] => none
  | c :: cs =>
    if c.isDigit then
      some (cs.dropWhile Char.isDigit)
    else
      none

/-- Optional fractional-seconds part `.d+`. -/
def fracOpt (cs : List Char) : Option (List Char) :=
  match cs with
  | '.' :: rest => digits1 rest
  | _ => some cs

/-- `z.string().datetime()` default check: the ISO pattern
`dddd-dd-ddTdd:dd:dd(.d+)?Z` (zod validates the shape by regex only,
without range checks on the components). -/
def isDatetimeString (s : String) : Bool :=
  let r :=
    (digitsN 4 s.data).bind (expectChar '-') |>.bind (digitsN 2)
      |>.bind (expectChar '-') |>.bind (digitsN 2)
      |>.bind (expectChar 'T') |>.bind (digitsN 2)
      |>.bind (expectChar ':') |>.bind (digitsN 2)
      |>.bind (expectChar ':') |>.bind (digitsN 2)
      |>.bind fracOpt |>.bind (expectChar 'Z')
  r = some []

/-- Fuel-indexed acceptance: does the validator accept the value
(`parse` succeeds)?  Recursion is driven by the schema, whose size bounds
the depth, so `sizeOf` of the schema is always enough fuel
(see `accepts`). -/
def acceptsF : Nat → ZodSchema → Value → Bool
  | 0, _, _ => false
  | n + 1, s, v =>
    match s with
    | .zString => isStr v
    | .zStringDatetime =>
      match v with
      | .vStr str => isDatetimeString str
      | _ => false
    | .zNumber => isNum v
    | .zBigInt => isBigIntV v
    | .zBoolean => isBoolV v
    | .zDate => isDateV v
    | .zNull => isNullV v
    | .zAny => true
    | .zBytes => isBytesV v
    | .zEnum vals =>
      match v with
      | .vStr str => vals.contains str
      | _ => false
    | .zArray elt =>
      match v with
      | .vArr xs => xs.all fun x => acceptsF n elt x
      | _ => false
    | .zUnion2 a b => acceptsF n a v || acceptsF n b v
    | .zUnion3 a b c => acceptsF n a v || acceptsF n b v || acceptsF n c v
    | .zOptional inner => isUndef v || acceptsF n inner v
    | .zNullable inner => isNullV v || acceptsF n inner v
    | .zObject shape _ =>
      match v with
      | .vObj fs => shape.all fun p => acceptsF n p.2 (lookupD fs p.1)
      | _ => false

mutual

/-- Structural depth of a validator; recursion in `acceptsF` strictly
decreases it at every step, so it bounds the fuel needed. -/
def rank : ZodSchema → Nat
  | .zString => 1
  | .zStringDatetime => 1
  | .zNumber => 1
  | .zBigInt => 1
  | .zBoolean => 1
  | .zDate => 1
  | .zNull => 1
  | .zAny => 1
  | .zBytes => 1
  | .zEnum _ => 1
  | .zArray s => rank s + 1
  | .zUnion2 a b => max (rank a) (rank b) + 1
  | .zUnion3 a b c => max (rank a) (max (rank b) (rank c)) + 1
  | .zOptional s => rank s + 1
  | .zNullable s => rank s + 1
  | .zObject shape _ => rankShape shape + 1

/-- Maximum rank over the field validators of an object shape. -/
def rankShape : List (String × ZodSchema) → Nat
  | [] => 0
  | (_, s) :: rest => max (rank s) (rankShape rest)

end

/-- Acceptance of a value by a zod validator (`schema.parse(v)` does not
throw). -/
def accepts (s : ZodSchema) (v : Value) : Bool :=
  acceptsF (rank s) s v

/-! ## Schema metadata (the `SchemaDef` input of the factories)

A field definition records exactly the attributes `zod-schemas.ts` reads
from a ZenStack field: `fieldDef.type`, `fieldDef.optional === true`,
`fieldDef.array === true`, `fieldDef.default !== undefined`
(`hasDefault`), `fieldDef.id === true`, `fieldDef.updatedAt === true`,
`fieldDef.foreignKeyFor !== undefined` (`isForeignKey`) and
`fieldDef.relation !== undefined` (`isRelation`). -/

structure FieldDef where
  type : String
  optional : Bool := false
  array : Bool := false
  hasDefault : Bool := false
  id : Bool := false
  updatedAt : Bool := false
  isForeignKey : Bool := false
  isRelation : Bool := false
deriving Repr, DecidableEq

/-- An entry of `model.uniqueFields`: either a simple unique field
(carrying its scalar `type`) or a compound constraint (carrying its
`fields` list of component field names). -/
inductive UniqueFieldDef where
  | simple (type : String)
  | compound (fields : List String)
deriving Repr, DecidableEq

/-- A model: field name to field definition, and unique-constraint name
to unique field definition (JS objects, here association lists). -/
structure ModelDef where
  fields : List (String × FieldDef)
  uniqueFields : List (String × UniqueFieldDef)
deriving Repr, DecidableEq

/-- A schema: model name to model definition. -/
structure SchemaDef where
  models : List (String × ModelDef)
deriving Repr, DecidableEq

/-! ## The validator factory (`src/zod-schemas.ts`) -/

/-- `getZodTypeForField` from `zod-schemas.ts`: maps a ZenStack field
type to a zod schema, wrapping in `z.array` when `isArray` and in
`.optional().nullable()` when `isOptional`. -/
def getZodTypeForField (fieldType : String) (isOptional : Bool)
    (isArray : Bool) : ZodSchema :=
  let baseSchema : ZodSchema :=
    match fieldType with
    | "String" => .zString
    | "Int" => .zNumber
    | "Float" => .zNumber
    | "BigInt" => .zBigInt
    | "Boolean" => .zBoolean
    | "DateTime" => .zUnion2 .zDate .zStringDatetime
    | "Json" => .zAny
    | "Bytes" => .zBytes
    | "Decimal" => .zUnion2 .zNumber .zString
    | _ => .zAny
  let baseSchema := if isArray then .zArray baseSchema else baseSchema
  if isOptional then .zNullable (.zOptional baseSchema) else baseSchema

/-- The scalar filter object of `createWhereSchema`
(`equals/not/in/notIn/lt/lte/gt/gte/contains/startsWith/endsWith`). -/
def whereFilterObject (baseType : ZodSchema) : ZodSchema :=
  let nullableBaseType := ZodSchema.zNullable baseType
  .zObject
    [("equals", .zOptional nullableBaseType),
     ("not", .zOptional nullableBaseType),
     ("in", .zOptional (.zArray baseType)),
     ("notIn", .zOptional (.zArray baseType)),
     ("lt", .zOptional baseType),
     ("lte", .zOptional baseType),
     ("gt", .zOptional baseType),
     ("gte", .zOptional baseType),
     ("contains", .zOptional .zString),
     ("startsWith", .zOptional .zString),
     ("endsWith", .zOptional .zString)]
    true

/-- Per-field entries of the where shape: relations get
`z.any().optional()`, scalars get
`z.union([base, z.null(), filterObject]).optional()`. -/
def whereShape (fields : List (String × FieldDef)) :
    List (String × ZodSchema) :=
  fields.map fun p =>
    if p.2.isRelation then
      (p.1, ZodSchema.zOptional .zAny)
    else
      let baseType := getZodTypeForField p.2.type false false
      (p.1, ZodSchema.zOptional (.zUnion3 baseType .zNull
        (whereFilterObject baseType)))

/-- Key-membership test for an association list. -/
def containsKey {α : Type} (l : List (String × α)) (k : String) : Bool :=
  (lookupOpt l k).isSome

/-- `A.merge(B)` on zod object shapes: the JS spread
`{...A.shape, ...B.shape}` — A's keys (with B's value where B also has
the key) followed by B's keys not in A. -/
def mergeShape (a b : List (String × ZodSchema)) :
    List (String × ZodSchema) :=
  (a.map fun p => (p.1, (lookupOpt b p.1).getD p.2)) ++
    b.filter fun p => !containsKey a p.1

/-- `.partial()` on a zod object shape: every field becomes optional. -/
def partialShape (shape : List (String × ZodSchema)) :
    List (String × ZodSchema) :=
  shape.map fun p => (p.1, ZodSchema.zOptional p.2)

/-- `createWhereSchema`: shape of scalar filters and relation
pass-throughs, merged with the `AND`/`OR`/`NOT` logical operators, all
partial, passthrough. A model name absent from the schema yields
`z.object({}).passthrough()`. -/
def createWhereSchema (schema : SchemaDef) (modelName : String) :
    ZodSchema :=
  match lookupOpt schema.models modelName with
  | none => .zObject [] true
  | some model =>
    let shape := whereShape model.fields
    let baseSchema := ZodSchema.zObject shape true
    let logicalShape : List (String × ZodSchema) :=
      [("AND", .zOptional (.zUnion2 baseSchema (.zArray baseSchema))),
       ("OR", .zOptional (.zArray baseSchema)),
       ("NOT", .zOptional (.zUnion2 baseSchema (.zArray baseSchema)))]
    .zObject (partialShape (mergeShape logicalShape shape)) true

/-- The relation entry of the create shape:
`{create, connect, connectOrCreate}`, passthrough, optional. -/
def createRelationEntry : ZodSchema :=
  .zOptional (.zObject
    [("create", .zOptional .zAny),
     ("connect", .zOptional .zAny),
     ("connectOrCreate", .zOptional .zAny)]
    true)

/-- Per-field entry of the create-data shape for a non-relation field:
optional iff marked optional, has a default, is an id, is an `updatedAt`
timestamp, or is a foreign key. -/
def createScalarEntry (fieldDef : FieldDef) : ZodSchema :=
  let isOptional := fieldDef.optional || fieldDef.hasDefault ||
    fieldDef.id || fieldDef.updatedAt
  let isFkOptional := if fieldDef.isForeignKey then true else isOptional
  getZodTypeForField fieldDef.type isFkOptional fieldDef.array

/-- The shape of `createCreateDataSchema`. -/
def createDataShape (fields : List (String × FieldDef)) :
    List (String × ZodSchema) :=
  fields.map fun p =>
    if p.2.isRelation then (p.1, createRelationEntry)
    else (p.1, createScalarEntry p.2)

/-- `createCreateDataSchema`: create-data input validator. A model name
absent from the schema yields `z.object({}).passthrough()`. -/
def createCreateDataSchema (schema : SchemaDef) (modelName : String) :
    ZodSchema :=
  match lookupOpt schema.models modelName with
  | none => .zObject [] true
  | some model => .zObject (createDataShape model.fields) true

/-- The relation entry of the update shape: `{create, connect,
connectOrCreate, disconnect, delete, update, updateMany, deleteMany,
set, upsert}`, passthrough, optional. -/
def updateRelationEntry : ZodSchema :=
  .zOptional (.zObject
    [("create", .zOptional .zAny),
     ("connect", .zOptional .zAny),
     ("connectOrCreate", .zOptional .zAny),
     ("disconnect", .zOptional .zAny),
     ("delete", .zOptional .zAny),
     ("update", .zOptional .zAny),
     ("updateMany", .zOptional .zAny),
     ("deleteMany", .zOptional .zAny),
     ("set", .zOptional .zAny),
     ("upsert", .zOptional .zAny)]
    true)

/-- The shape of `createUpdateDataSchema`: id fields are skipped
(`if (isId) continue`), relation fields get `updateRelationEntry`, and
every other field gets its zod type with `isOptional = true`. -/
def updateDataShape (fields : List (String × FieldDef)) :
    List (String × ZodSchema) :=
  fields.filterMap fun p =>
    if p.2.id then none
    else if p.2.isRelation then some (p.1, updateRelationEntry)
    else some (p.1, getZodTypeForField p.2.type true p.2.array)

/-- `createUpdateDataSchema`: update-data input validator. A model name
absent from the schema yields `z.object({}).passthrough()`. -/
def createUpdateDataSchema (schema : SchemaDef) (modelName : String) :
    ZodSchema :=
  match lookupOpt schema.models modelName with
  | none => .zObject [] true
  | some model => .zObject (updateDataShape model.fields) true

/-- Inner shape of a compound unique constraint: each component field is
validated with its scalar type (non-optional), or `z.any()` when the
component name is not a declared field. -/
def compoundShape (fields : List (String × FieldDef))
    (compoundFields : List String) : List (String × ZodSchema) :=
  compoundFields.map fun compoundField =>
    match lookupOpt fields compoundField with
    | some fieldInfo =>
      (compoundField,
        getZodTypeForField fieldInfo.type false fieldInfo.array)
    | none => (compoundField, ZodSchema.zAny)

/-- The shape of `createUniqueWhereSchema`: one entry per unique
constraint; compound constraints validate an inner passthrough object of
their component fields (optional), simple unique fields validate the
scalar type with `isOptional = true`. -/
def uniqueWhereShape (fields : List (String × FieldDef))
    (uniqueFields : List (String × UniqueFieldDef)) :
    List (String × ZodSchema) :=
  uniqueFields.map fun p =>
    match p.2 with
    | .compound compoundFields =>
      (p.1, ZodSchema.zOptional
        (.zObject (compoundShape fields compoundFields) true))
    | .simple fieldType =>
      (p.1, getZodTypeForField fieldType true false)

/-- `createUniqueWhereSchema`: unique-where input validator. A model
name absent from the schema yields `z.object({}).passthrough()`. -/
def createUniqueWhereSchema (schema : SchemaDef) (modelName : String) :
    ZodSchema :=
  match lookupOpt schema.models modelName with
  | none => .zObject [] true
  | some model =>
    .zObject (uniqueWhereShape model.fields model.uniqueFields) true

/-- The shape of `createSelectSchema`: every field (scalar or relation)
maps to `z.union([z.boolean(), z.any()]).optional()`. -/
def selectShape (fields : List (String × FieldDef)) :
    List (String × ZodSchema) :=
  fields.map fun p =>
    (p.1, ZodSchema.zOptional (.zUnion2 .zBoolean .zAny))

/-- `createSelectSchema`: select input validator, an optional
passthrough object. A model name absent from the schema yields
`z.object({}).passthrough()` (not optional). -/
def createSelectSchema (schema : SchemaDef) (modelName : String) :
    ZodSchema :=
  match lookupOpt schema.models modelName with
  | none => .zObject [] true
  | some model => .zOptional (.zObject (selectShape model.fields) true)

/-- The shape of `createIncludeSchema`: only relation fields appear,
each mapped to `z.union([z.boolean(), z.any()]).optional()`. -/
def includeShape (fields : List (String × FieldDef)) :
    List (String × ZodSchema) :=
  fields.filterMap fun p =>
    if p.2.isRelation then
      some (p.1, ZodSchema.zOptional (.zUnion2 .zBoolean .zAny))
    else none

/-- `createIncludeSchema`: include input validator, an optional
passthrough object over the relation fields. A model name absent from
the schema yields `z.object({}).passthrough()` (not optional). -/
def createIncludeSchema (schema : SchemaDef) (modelName : String) :
    ZodSchema :=
  match lookupOpt schema.models modelName with
  | none => .zObject [] true
  | some model => .zOptional (.zObject (includeShape model.fields) true)

/-- The shape of `createOrderBySchema`: non-relation fields map to
`z.enum(["asc", "desc"]).optional()`; relation fields are excluded. -/
def orderByShape (fields : List (String × FieldDef)) :
    List (String × ZodSchema) :=
  fields.filterMap fun p =>
    if p.2.isRelation then none
    else some (p.1, ZodSchema.zOptional (.zEnum ["asc", "desc"]))

/-- `createOrderBySchema`: a single ordering object or an array of
them, optional. A model name absent from the schema yields `z.any()`. -/
def createOrderBySchema (schema : SchemaDef) (modelName : String) :
    ZodSchema :=
  match lookupOpt schema.models modelName with
  | none => .zAny
  | some model =>
    let obj := ZodSchema.zObject (orderByShape model.fields) true
    .zOptional (.zUnion2 obj (.zArray obj))

/-- `createModelSchemas`: the thirteen per-operation request validators,
keyed by operation name, in source order. -/
def createModelSchemas (schema : SchemaDef) (modelName : String) :
    List (String × ZodSchema) :=
  let whereSchema := createWhereSchema schema modelName
  let uniqueWhereSchema := createUniqueWhereSchema schema modelName
  let createDataSchema := createCreateDataSchema schema modelName
  let updateDataSchema := createUpdateDataSchema schema modelName
  let selectSchema := createSelectSchema schema modelName
  let includeSchema := createIncludeSchema schema modelName
  let orderBySchema := createOrderBySchema schema modelName
  [("findMany", .zOptional (.zObject
      [("where", .zOptional whereSchema),
       ("select", selectSchema),
       ("include", includeSchema),
       ("orderBy", orderBySchema),
       ("skip", .zOptional .zNumber),
       ("take", .zOptional .zNumber),
       ("cursor", .zOptional uniqueWhereSchema),
       ("distinct", .zOptional (.zArray .zString))]
      true)),
   ("findUnique", .zObject
      [("where", uniqueWhereSchema),
       ("select", selectSchema),
       ("include", includeSchema)]
      true),
   ("findFirst", .zOptional (.zObject
      [("where", .zOptional whereSchema),
       ("select", selectSchema),
       ("include", includeSchema),
       ("orderBy", orderBySchema),
       ("skip", .zOptional .zNumber),
       ("cursor", .zOptional uniqueWhereSchema)]
      true)),
   ("create", .zObject
      [("data", createDataSchema),
       ("select", selectSchema),
       ("include", includeSchema)]
      true),
   ("createMany", .zObject
      [("data", .zUnion2 createDataSchema (.zArray createDataSchema)),
       ("skipDuplicates", .zOptional .zBoolean)]
      true),
   ("update", .zObject
      [("where", uniqueWhereSchema),
       ("data", updateDataSchema),
       ("select", selectSchema),
       ("include", includeSchema)]
      true),
   ("updateMany", .zObject
      [("where", .zOptional whereSchema),
       ("data", updateDataSchema),
       ("limit", .zOptional .zNumber)]
      true),
   ("upsert", .zObject
      [("where", uniqueWhereSchema),
       ("create", createDataSchema),
       ("update", updateDataSchema),
       ("select", selectSchema),
       ("include", includeSchema)]
      true),
   ("delete", .zObject
      [("where", uniqueWhereSchema),
       ("select", selectSchema),
       ("include", includeSchema)]
      true),
   ("deleteMany", .zOptional (.zObject
      [("where", .zOptional whereSchema),
       ("limit", .zOptional .zNumber)]
      true)),
   ("count", .zOptional (.zObject
      [("where", .zOptional whereSchema),
       ("select", .zOptional .zAny),
       ("cursor", .zOptional uniqueWhereSchema),
       ("skip", .zOptional .zNumber),
       ("take", .zOptional .zNumber),
       ("orderBy", orderBySchema)]
      true)),
   ("aggregate", .zObject
      [("where", .zOptional whereSchema),
       ("cursor", .zOptional uniqueWhereSchema),
       ("skip", .zOptional .zNumber),
       ("take", .zOptional .zNumber),
       ("orderBy", orderBySchema),
       ("_count", .zOptional .zAny),
       ("_avg", .zOptional .zAny),
       ("_sum", .zOptional .zAny),
       ("_min", .zOptional .zAny),
       ("_max", .zOptional .zAny)]
      true),
   ("groupBy", .zObject
      [("by", .zUnion2 .zString (.zArray .zString)),
       ("where", .zOptional whereSchema),
       ("having", .zOptional .zAny),
       ("orderBy", orderBySchema),
       ("skip", .zOptional .zNumber),
       ("take", .zOptional .zNumber),
       ("_count", .zOptional .zAny),
       ("_avg", .zOptional .zAny),
       ("_sum", .zOptional .zAny),
       ("_min", .zOptional .zAny),
       ("_max", .zOptional .zAny)]
      true)]

/-! ## The router factory (`src/router-generator.ts`) -/

/-- The 13 canonical operation names. -/
def canonicalOps : List String :=
  ["findMany", "findUnique", "findFirst", "create", "createMany",
   "update", "updateMany", "upsert", "delete", "deleteMany",
   "count", "aggregate", "groupBy"]

/-- `modelName.charAt(0).toLowerCase() + modelName.slice(1)`. -/
def uncapitalize (s : String) : String :=
  match s.data with
  | [] => ""
  | c :: cs => String.mk (c.toLower :: cs)

/-- The request-context accessor (`ctx.db`): one property per lowercased
model name, each a collection of operation methods.  A method takes the
validated input and either returns a result or fails; absence of an
entry models `db[modelNameLower]` being undefined, absence of a method
models `typeof model[op] !== "function"`. -/
def DbAccessor : Type := List (String × List (String × (Value → Except Value Value)))

/-- The outcome of invoking a generated endpoint. -/
inductive CallResult where
  | validationError
  | configError (message : String)
  | ok (result : Value)
  | accessorFailure (error : Value)

/-- One generated endpoint, as assembled by `createHandler`:
the query/mutation flag, the operation's input validator, and the data
needed by the dispatch handler (model name and operation name). -/
structure Procedure where
  isQuery : Bool
  inputSchema : ZodSchema
  modelName : String
  op : String

/-- The dispatch handler body of `createHandler`: look up the accessor
for the lowercased model name and the method named after the operation;
if either is missing, fail with the `INTERNAL_SERVER_ERROR`
configuration error; otherwise invoke the method on the input and
return its result or propagate its failure unchanged. -/
def runHandler (p : Procedure) (db : DbAccessor) (input : Value) :
    CallResult :=
  let modelNameLower := uncapitalize p.modelName
  match lookupOpt db modelNameLower with
  | none =>
    .configError
      ("Operation " ++ p.op ++ " not found on model " ++ p.modelName)
  | some model =>
    match lookupOpt model p.op with
    | none =>
      .configError
        ("Operation " ++ p.op ++ " not found on model " ++ p.modelName)
    | some method =>
      match method input with
      | .ok result => .ok result
      | .error e => .accessorFailure e

/-- A full endpoint invocation (`t.procedure.input(schema).query/
mutation(handler)` called with `input`): tRPC first runs the input
validator; only a validator-accepted input reaches the handler. -/
def invokeEndpoint (p : Procedure) (db : DbAccessor) (input : Value) :
    CallResult :=
  if accepts p.inputSchema input then runHandler p db input
  else .validationError

/-- `createHandler` of `createModelProcedures`: builds the endpoint for
one operation, reading the operation's validator from the generated
validator set. -/
def createHandler (schema : SchemaDef) (modelName : String)
    (op : String) (isQuery : Bool) : Procedure :=
  { isQuery := isQuery
    inputSchema :=
      ((lookupOpt (createModelSchemas schema modelName) op).getD .zAny)
    modelName := modelName
    op := op }

/-- `createModelProcedures`: the sub-router for one model — the 13
endpoints keyed by operation name, queries for the six read operations
and mutations for the rest, in source order. -/
def createModelProcedures (schema : SchemaDef) (modelName : String) :
    List (String × Procedure) :=
  [("findMany", createHandler schema modelName "findMany" true),
   ("findUnique", createHandler schema modelName "findUnique" true),
   ("findFirst", createHandler schema modelName "findFirst" true),
   ("count", createHandler schema modelName "count" true),
   ("aggregate", createHandler schema modelName "aggregate" true),
   ("groupBy", createHandler schema modelName "groupBy" true),
   ("create", createHandler schema modelName "create" false),
   ("createMany", createHandler schema modelName "createMany" false),
   ("update", createHandler schema modelName "update" false),
   ("updateMany", createHandler schema modelName "updateMany" false),
   ("upsert", createHandler schema modelName "upsert" false),
   ("delete", createHandler schema modelName "delete" false),
   ("deleteMany", createHandler schema modelName "deleteMany" false)]

/-- JS object property assignment `o[k] = v`: replace an existing entry
in place, otherwise append. -/
def insertAssoc {α : Type} (l : List (String × α)) (k : String) (v : α) :
    List (String × α) :=
  match l with
  | [] => [(k, v)]
  | (k', v') :: rest =>
    if k' = k then (k, v) :: rest else (k', v') :: insertAssoc rest k v

/-- `createZenStackRouter`: one sub-router per model, keyed by the
lowercased model name, assembled by the `modelRouters[modelNameLower] =
createModelProcedures(...)` loop over `Object.keys(schema.models)`. -/
def createZenStackRouter (schema : SchemaDef) :
    List (String × List (String × Procedure)) :=
  (schema.models.map Prod.fst).foldl
    (fun modelRouters modelName =>
      insertAssoc modelRouters (uncapitalize modelName)
        (createModelProcedures schema modelName))
    []

/-- Number of entries of an association list carrying a given key. -/
def countKey {α : Type} (l : List (String × α)) (k : String) : Nat :=
  (l.filter fun p => p.1 = k).length

/-! ## Semantic infrastructure: `acceptsF` is stable above the rank -/

theorem all_congr {α : Type} {l : List α} {f g : α → Bool}
    (h : ∀ x ∈ l, f x = g x) : l.all f = l.all g := by
  induction l with
  | nil => rfl
  | cons hd tl ih =>
    simp only [List.all_cons]
    rw [h hd (by simp), ih fun x hx => h x (by simp [hx])]

theorem rank_pos (s : ZodSchema) : 1 ≤ rank s := by
  cases s <;> simp [rank]

theorem rank_le_rankShape {shape : List (String × ZodSchema)} :
    ∀ p ∈ shape, rank p.2 ≤ rankShape shape := by
  induction shape with
  | nil => simp
  | cons hd tl ih =>
    intro p hp
    obtain ⟨k, s⟩ := hd
    simp only [rankShape]
    rcases List.mem_cons.mp hp with h | h
    · subst h; exact Nat.le_max_left _ _
    · exact Nat.le_trans (ih p h) (Nat.le_max_right _ _)

/-- Any fuel at least the rank of the schema computes the same
acceptance verdict as the rank itself. -/
theorem acceptsF_stable :
    ∀ (n : Nat) (s : ZodSchema) (v : Value), rank s ≤ n →
      acceptsF n s v = acceptsF (rank s) s v := by
  intro n
  induction n using Nat.strong_induction_on with
  | _ n ih =>
    intro s v hle
    match n with
    | 0 => exact absurd hle (by have := rank_pos s; omega)
    | m + 1 =>
      cases s with
      | zString => rfl
      | zStringDatetime => rfl
      | zNumber => rfl
      | zBigInt => rfl
      | zBoolean => rfl
      | zDate => rfl
      | zNull => rfl
      | zAny => rfl
      | zBytes => rfl
      | zEnum vals => rfl
      | zArray elt =>
        simp only [rank] at hle ⊢
        cases v with
        | vArr xs =>
          simp only [acceptsF]
          exact all_congr fun x _ => by
            rw [ih m (by omega) elt x (by omega),
              ih (rank elt) (by omega) elt x (by omega)]
        | _ => rfl
      | zUnion2 a b =>
        simp only [rank] at hle ⊢
        simp only [acceptsF]
        have ha1 := ih m (by omega) a v (by omega)
        have hb1 := ih m (by omega) b v (by omega)
        have ha2 :=
          ih (max (rank a) (rank b)) (by omega) a v (by omega)
        have hb2 :=
          ih (max (rank a) (rank b)) (by omega) b v (by omega)
        rw [ha1, hb1, ha2, hb2]
      | zUnion3 a b c =>
        simp only [rank] at hle ⊢
        simp only [acceptsF]
        have hm3 : max (rank a) (max (rank b) (rank c)) < m + 1 := by
          omega
        have ha1 := ih m (by omega) a v (by omega)
        have hb1 := ih m (by omega) b v (by omega)
        have hc1 := ih m (by omega) c v (by omega)
        have ha2 := ih _ hm3 a v (by omega)
        have hb2 := ih _ hm3 b v (by omega)
        have hc2 := ih _ hm3 c v (by omega)
        rw [ha1, hb1, hc1, ha2, hb2, hc2]
      | zOptional inner =>
        simp only [rank] at hle ⊢
        simp only [acceptsF]
        rw [ih m (by omega) inner v (by omega)]
      | zNullable inner =>
        simp only [rank] at hle ⊢
        simp only [acceptsF]
        rw [ih m (by omega) inner v (by omega)]
      | zObject shape pass =>
        simp only [rank] at hle ⊢
        cases v with
        | vObj fs =>
          simp only [acceptsF]
          exact all_congr fun p hp => by
            have hr := rank_le_rankShape p hp
            rw [ih m (by omega) p.2 _ (by omega),
              ih (rankShape shape) (by omega) p.2 _ (by omega)]
        | _ => rfl

/-! Unfolding lemmas for `accepts` on each combinator. -/

theorem accepts_optional (s : ZodSchema) (v : Value) :
    accepts (.zOptional s) v = (isUndef v || accepts s v) := by
  simp only [accepts, rank, acceptsF]

theorem accepts_nullable (s : ZodSchema) (v : Value) :
    accepts (.zNullable s) v = (isNullV v || accepts s v) := by
  simp only [accepts, rank, acceptsF]

theorem accepts_union2 (a b : ZodSchema) (v : Value) :
    accepts (.zUnion2 a b) v = (accepts a v || accepts b v) := by
  simp only [accepts, rank, acceptsF]
  rw [acceptsF_stable _ a v (Nat.le_max_left _ _),
    acceptsF_stable _ b v (Nat.le_max_right _ _)]

theorem accepts_union3 (a b c : ZodSchema) (v : Value) :
    accepts (.zUnion3 a b c) v =
      (accepts a v || accepts b v || accepts c v) := by
  simp only [accepts, rank, acceptsF]
  rw [acceptsF_stable _ a v (Nat.le_max_left _ _),
    acceptsF_stable _ b v
      (Nat.le_trans (Nat.le_max_left _ _) (Nat.le_max_right _ _)),
    acceptsF_stable _ c v
      (Nat.le_trans (Nat.le_max_right _ _) (Nat.le_max_right _ _))]

theorem accepts_array_obj (s : ZodSchema) (xs : List Value) :
    accepts (.zArray s) (.vArr xs) = xs.all fun x => accepts s x := by
  simp only [accepts, rank, acceptsF]

theorem accepts_object_obj (shape : List (String × ZodSchema))
    (pass : Bool) (fs : List (String × Value)) :
    accepts (.zObject shape pass) (.vObj fs) =
      shape.all fun p => accepts p.2 (lookupD fs p.1) := by
  simp only [accepts, rank, acceptsF]
  exact all_congr fun p hp =>
    acceptsF_stable _ p.2 _ (rank_le_rankShape p hp)

theorem accepts_any (v : Value) : accepts .zAny v = true := rfl

theorem accepts_string (v : Value) : accepts .zString v = isStr v := rfl

/-- An object validator whose fields all tolerate `undefined` accepts a
single-key object as soon as every field entry sharing that key accepts
the supplied value. -/
theorem accepts_singleObj (shape : List (String × ZodSchema))
    (k : String) (v : Value)
    (hall : ∀ p ∈ shape, accepts p.2 .vUndefined = true)
    (hk : ∀ p ∈ shape, p.1 = k → accepts p.2 v = true) :
    accepts (.zObject shape true) (.vObj [(k, v)]) = true := by
  rw [accepts_object_obj]
  rw [List.all_eq_true]
  intro p hp
  by_cases h : k = p.1
  · simpa [lookupD, h] using hk p hp h.symm
  · simpa [lookupD, h] using hall p hp

/-! ## Concrete models used as witnesses -/

/-- `User { id String @id @default(cuid()), email String @unique,
name String?, createdAt DateTime @default(now()),
updatedAt DateTime @updatedAt, posts Post[] }`. -/
def userModel : ModelDef where
  fields :=
    [("id", { type := "String", id := true, hasDefault := true }),
     ("email", { type := "String" }),
     ("name", { type := "String", optional := true }),
     ("createdAt", { type := "DateTime", hasDefault := true }),
     ("updatedAt", { type := "DateTime", updatedAt := true }),
     ("posts", { type := "Post", array := true, isRelation := true })]
  uniqueFields :=
    [("id", .simple "String"), ("email", .simple "String")]

/-- `Post { id String @id @default(cuid()), title String,
published Boolean @default(false), author User @relation(...),
authorId String (foreign key) }`. -/
def postModel : ModelDef where
  fields :=
    [("id", { type := "String", id := true, hasDefault := true }),
     ("title", { type := "String" }),
     ("published", { type := "Boolean", hasDefault := true }),
     ("author", { type := "User", isRelation := true }),
     ("authorId", { type := "String", isForeignKey := true })]
  uniqueFields := [("id", .simple "String")]

/-- A model with a required `Json` field. -/
def docModel : ModelDef where
  fields :=
    [("id", { type := "String", id := true, hasDefault := true }),
     ("title", { type := "String" }),
     ("payload", { type := "Json" })]
  uniqueFields := [("id", .simple "String")]

/-- A model with a required `String[]` array field and a compound
unique constraint. -/
def tagModel : ModelDef where
  fields :=
    [("id", { type := "String", id := true, hasDefault := true }),
     ("names", { type := "String", array := true }),
     ("scope", { type := "String" }),
     ("key", { type := "String" })]
  uniqueFields :=
    [("id", .simple "String"),
     ("scope_key", .compound ["scope", "key"])]

/-- The test schema. -/
def testSchema : SchemaDef where
  models :=
    [("User", userModel), ("Post", postModel), ("Doc", docModel),
     ("Tag", tagModel)]

/-! ## Association-list lemmas -/

theorem lookupOpt_cons {α : Type} (k' : String) (v' : α)
    (t : List (String × α)) (k : String) :
    lookupOpt ((k', v') :: t) k =
      if k' = k then some v' else lookupOpt t k := rfl

theorem containsKey_cons {α : Type} (k' : String) (v' : α)
    (t : List (String × α)) (k : String) :
    containsKey ((k', v') :: t) k =
      if k' = k then true else containsKey t k := by
  simp only [containsKey, lookupOpt_cons]
  split <;> simp

theorem countKey_cons {α : Type} (k' : String) (v' : α)
    (t : List (String × α)) (k : String) :
    countKey ((k', v') :: t) k =
      (if k' = k then 1 else 0) + countKey t k := by
  simp only [countKey, List.filter]
  split <;> rename_i h <;> simp_all [Nat.add_comm]

theorem lookupOpt_mem {α : Type} {l : List (String × α)} {k : String}
    {v : α} (h : lookupOpt l k = some v) : (k, v) ∈ l := by
  induction l with
  | nil => simp [lookupOpt] at h
  | cons hd tl ih =>
    obtain ⟨k', v'⟩ := hd
    rw [lookupOpt_cons] at h
    by_cases hk : k' = k
    · subst hk
      rw [if_pos rfl] at h
      injection h with h
      subst h
      exact List.mem_cons_self _ _
    · rw [if_neg hk] at h
      exact List.mem_cons_of_mem _ (ih h)

theorem countKey_eq_zero_of_not_mem {α : Type}
    {l : List (String × α)} {k : String}
    (h : k ∉ l.map Prod.fst) : countKey l k = 0 := by
  induction l with
  | nil => rfl
  | cons hd tl ih =>
    obtain ⟨k', v'⟩ := hd
    simp only [List.map_cons, List.mem_cons] at h
    push_neg at h
    rw [countKey_cons, if_neg (fun hh => h.1 hh.symm), ih h.2]

theorem countKey_eq_one_of_nodup {α : Type} {l : List (String × α)}
    {k : String} (hnd : (l.map Prod.fst).Nodup)
    (hc : containsKey l k = true) : countKey l k = 1 := by
  induction l with
  | nil => simp [containsKey, lookupOpt] at hc
  | cons hd tl ih =>
    obtain ⟨k', v'⟩ := hd
    simp only [List.map_cons, List.nodup_cons] at hnd
    rw [containsKey_cons] at hc
    rw [countKey_cons]
    by_cases hk : k' = k
    · subst hk
      rw [if_pos rfl, countKey_eq_zero_of_not_mem hnd.1]
    · rw [if_neg hk] at hc
      rw [if_neg hk, ih hnd.2 hc]

theorem mem_insertAssoc {α : Type} {l : List (String × α)}
    {k : String} {v : α} {p : String × α}
    (h : p ∈ insertAssoc l k v) : p = (k, v) ∨ p ∈ l := by
  induction l with
  | nil => simp [insertAssoc] at h; simp [h]
  | cons hd tl ih =>
    obtain ⟨k', v'⟩ := hd
    simp only [insertAssoc] at h
    by_cases hk : k' = k
    · rw [if_pos hk] at h
      rcases List.mem_cons.mp h with h | h
      · exact Or.inl h
      · exact Or.inr (List.mem_cons_of_mem _ h)
    · rw [if_neg hk] at h
      rcases List.mem_cons.mp h with h | h
      · exact Or.inr (by simp [h])
      · rcases ih h with h | h
        · exact Or.inl h
        · exact Or.inr (List.mem_cons_of_mem _ h)

theorem mem_keys_insertAssoc {α : Type} {l : List (String × α)}
    {k x : String} {v : α}
    (h : x ∈ (insertAssoc l k v).map Prod.fst) :
    x = k ∨ x ∈ l.map Prod.fst := by
  simp only [List.mem_map] at h
  obtain ⟨p, hp, rfl⟩ := h
  rcases mem_insertAssoc hp with h | h
  · exact Or.inl (by rw [h])
  · exact Or.inr (List.mem_map_of_mem _ h)

theorem nodup_insertAssoc {α : Type} {l : List (String × α)}
    (hnd : (l.map Prod.fst).Nodup) (k : String) (v : α) :
    ((insertAssoc l k v).map Prod.fst).Nodup := by
  induction l with
  | nil => simp [insertAssoc]
  | cons hd tl ih =>
    obtain ⟨k', v'⟩ := hd
    simp only [List.map_cons, List.nodup_cons] at hnd
    simp only [insertAssoc]
    by_cases hk : k' = k
    · subst hk
      rw [if_pos rfl]
      simp only [List.map_cons, List.nodup_cons]
      exact hnd
    · rw [if_neg hk]
      simp only [List.map_cons, List.nodup_cons]
      refine ⟨fun hmem => ?_, ih hnd.2⟩
      rcases mem_keys_insertAssoc hmem with h | h
      · exact hk h
      · exact hnd.1 h

theorem containsKey_insertAssoc_self {α : Type}
    (l : List (String × α)) (k : String) (v : α) :
    containsKey (insertAssoc l k v) k = true := by
  induction l with
  | nil => simp [insertAssoc, containsKey, lookupOpt]
  | cons hd tl ih =>
    obtain ⟨k', v'⟩ := hd
    simp only [insertAssoc]
    by_cases hk : k' = k
    · rw [if_pos hk, containsKey_cons, if_pos rfl]
    · rw [if_neg hk, containsKey_cons, if_neg hk]
      exact ih

theorem containsKey_insertAssoc_mono {α : Type}
    {l : List (String × α)} {x : String}
    (hc : containsKey l x = true) (k : String) (v : α) :
    containsKey (insertAssoc l k v) x = true := by
  induction l with
  | nil => simp [containsKey, lookupOpt] at hc
  | cons hd tl ih =>
    obtain ⟨k', v'⟩ := hd
    rw [containsKey_cons] at hc
    simp only [insertAssoc]
    by_cases hk : k' = k
    · subst hk
      rw [if_pos rfl, containsKey_cons]
      by_cases hx : k' = x
      · rw [if_pos hx]
      · rw [if_neg hx]; rw [if_neg hx] at hc; exact hc
    · rw [if_neg hk, containsKey_cons]
      by_cases hx : k' = x
      · rw [if_pos hx]
      · rw [if_neg hx]; rw [if_neg hx] at hc; exact ih hc

/-! ## Router-construction lemmas -/

theorem router_foldl_nodup (schema : SchemaDef) :
    ∀ (names : List String)
      (acc : List (String × List (String × Procedure))),
      (acc.map Prod.fst).Nodup →
      ((names.foldl
        (fun modelRouters modelName =>
          insertAssoc modelRouters (uncapitalize modelName)
            (createModelProcedures schema modelName)) acc).map
          Prod.fst).Nodup := by
  intro names
  induction names with
  | nil => intro acc h; exact h
  | cons hd tl ih =>
    intro acc h
    exact ih _ (nodup_insertAssoc h _ _)

theorem router_nodup (schema : SchemaDef) :
    ((createZenStackRouter schema).map Prod.fst).Nodup :=
  router_foldl_nodup schema _ [] (by simp)

theorem router_foldl_containsKey (schema : SchemaDef) :
    ∀ (names : List String)
      (acc : List (String × List (String × Procedure))) (key : String),
      (key ∈ names.map uncapitalize ∨ containsKey acc key = true) →
      containsKey
        (names.foldl
          (fun modelRouters modelName =>
            insertAssoc modelRouters (uncapitalize modelName)
              (createModelProcedures schema modelName)) acc) key =
        true := by
  intro names
  induction names with
  | nil =>
    intro acc key h
    rcases h with h | h
    · simp at h
    · exact h
  | cons hd tl ih =>
    intro acc key h
    apply ih
    rcases h with h | h
    · simp only [List.map_cons, List.mem_cons] at h
      rcases h with h | h
      · exact Or.inr (h ▸ containsKey_insertAssoc_self _ _ _)
      · exact Or.inl h
    · exact Or.inr (containsKey_insertAssoc_mono h _ _)

theorem router_containsKey {schema : SchemaDef} {modelName : String}
    (hm : modelName ∈ schema.models.map Prod.fst) :
    containsKey (createZenStackRouter schema)
      (uncapitalize modelName) = true := by
  apply router_foldl_containsKey schema _ [] _
  exact Or.inl (List.mem_map_of_mem _ hm)

theorem router_foldl_values (schema : SchemaDef) :
    ∀ (names : List String)
      (acc : List (String × List (String × Procedure))),
      (∀ p ∈ acc, ∃ n, p.2 = createModelProcedures schema n) →
      ∀ p ∈ names.foldl
          (fun modelRouters modelName =>
            insertAssoc modelRouters (uncapitalize modelName)
              (createModelProcedures schema modelName)) acc,
        ∃ n, p.2 = createModelProcedures schema n := by
  intro names
  induction names with
  | nil => intro acc h; exact h
  | cons hd tl ih =>
    intro acc h
    apply ih
    intro p hp
    rcases mem_insertAssoc hp with h' | h'
    · exact ⟨hd, by rw [h']⟩
    · exact h p h'

theorem router_values {schema : SchemaDef}
    {p : String × List (String × Procedure)}
    (hp : p ∈ createZenStackRouter schema) :
    ∃ n, p.2 = createModelProcedures schema n :=
  router_foldl_values schema _ [] (by simp) p hp

theorem countKey_eq_count {α : Type} (l : List (String × α))
    (k : String) : countKey l k = (l.map Prod.fst).count k := by
  induction l with
  | nil => rfl
  | cons hd tl ih =>
    obtain ⟨k', v'⟩ := hd
    rw [countKey_cons, ih]
    simp only [List.map_cons, List.count_cons]
    by_cases hk : k' = k
    · subst hk; simp [Nat.add_comm]
    · simp [beq_iff_eq, hk, Ne.symm hk]

theorem keys_createModelSchemas (schema : SchemaDef)
    (modelName : String) :
    (createModelSchemas schema modelName).map Prod.fst =
      ["findMany", "findUnique", "findFirst", "create", "createMany",
       "update", "updateMany", "upsert", "delete", "deleteMany",
       "count", "aggregate", "groupBy"] := rfl

theorem keys_createModelProcedures (schema : SchemaDef)
    (modelName : String) :
    (createModelProcedures schema modelName).map Prod.fst =
      ["findMany", "findUnique", "findFirst", "count", "aggregate",
       "groupBy", "create", "createMany", "update", "updateMany",
       "upsert", "delete", "deleteMany"] := rfl

theorem countKey_createModelSchemas (schema : SchemaDef)
    (modelName : String) {op : String} (hop : op ∈ canonicalOps) :
    countKey (createModelSchemas schema modelName) op = 1 := by
  rw [countKey_eq_count, keys_createModelSchemas]
  fin_cases hop <;> decide

theorem countKey_createModelProcedures (schema : SchemaDef)
    (modelName : String) {op : String} (hop : op ∈ canonicalOps) :
    countKey (createModelProcedures schema modelName) op = 1 := by
  rw [countKey_eq_count, keys_createModelProcedures]
  fin_cases hop <;> decide

/-! ## Claim theorems -/

/-- C2: for every model present in the schema, router generation
produces exactly one sub-router keyed by that model's lowercased name;
for every operation of the canonical 13, the model's validator set
contains exactly one validator keyed by the operation and the
sub-router at the model's key contains exactly one endpoint keyed by
the operation — with no condition on the model's relations. -/
theorem one_subrouter_13_ops (schema : SchemaDef) (modelName : String)
    (hm : modelName ∈ schema.models.map Prod.fst)
    (op : String) (hop : op ∈ canonicalOps) :
    countKey (createModelSchemas schema modelName) op = 1 ∧
    countKey (createZenStackRouter schema) (uncapitalize modelName)
      = 1 ∧
    ∀ sub,
      lookupOpt (createZenStackRouter schema) (uncapitalize modelName)
        = some sub →
      countKey sub op = 1 := by
  refine ⟨countKey_createModelSchemas _ _ hop,
    countKey_eq_one_of_nodup (router_nodup schema)
      (router_containsKey hm), ?_⟩
  intro sub hsub
  obtain ⟨n, hn⟩ := router_values (lookupOpt_mem hsub)
  simp only at hn
  rw [hn]
  exact countKey_createModelProcedures _ _ hop

/-- Witness for `one_subrouter_13_ops` at the concrete test schema,
model `User`, operation `findMany`. -/
theorem one_subrouter_13_ops_witness :
    countKey (createModelSchemas testSchema "User") "findMany" = 1 ∧
    countKey (createZenStackRouter testSchema) (uncapitalize "User")
      = 1 ∧
    ∀ sub,
      lookupOpt (createZenStackRouter testSchema) (uncapitalize "User")
        = some sub →
      countKey sub "findMany" = 1 :=
  one_subrouter_13_ops testSchema "User" (by decide) "findMany"
    (by decide)

/-- C7: the operation-to-endpoint-kind mapping is fixed for every
model: the six read operations are query endpoints and the seven
mutating operations are mutation endpoints. -/
theorem query_mutation_kinds (schema : SchemaDef) (modelName : String) :
    ((lookupOpt (createModelProcedures schema modelName)
      "findMany").map Procedure.isQuery = some true) ∧
    ((lookupOpt (createModelProcedures schema modelName)
      "findUnique").map Procedure.isQuery = some true) ∧
    ((lookupOpt (createModelProcedures schema modelName)
      "findFirst").map Procedure.isQuery = some true) ∧
    ((lookupOpt (createModelProcedures schema modelName)
      "count").map Procedure.isQuery = some true) ∧
    ((lookupOpt (createModelProcedures schema modelName)
      "aggregate").map Procedure.isQuery = some true) ∧
    ((lookupOpt (createModelProcedures schema modelName)
      "groupBy").map Procedure.isQuery = some true) ∧
    ((lookupOpt (createModelProcedures schema modelName)
      "create").map Procedure.isQuery = some false) ∧
    ((lookupOpt (createModelProcedures schema modelName)
      "createMany").map Procedure.isQuery = some false) ∧
    ((lookupOpt (createModelProcedures schema modelName)
      "update").map Procedure.isQuery = some false) ∧
    ((lookupOpt (createModelProcedures schema modelName)
      "updateMany").map Procedure.isQuery = some false) ∧
    ((lookupOpt (createModelProcedures schema modelName)
      "upsert").map Procedure.isQuery = some false) ∧
    ((lookupOpt (createModelProcedures schema modelName)
      "delete").map Procedure.isQuery = some false) ∧
    ((lookupOpt (createModelProcedures schema modelName)
      "deleteMany").map Procedure.isQuery = some false) := by
  repeat' constructor

/-- Every endpoint of a model's sub-router carries that model's name
and its own operation name in its dispatch data. -/
theorem mem_procedures_fields {schema : SchemaDef} {m op : String}
    {p : Procedure} (hp : (op, p) ∈ createModelProcedures schema m) :
    p.modelName = m ∧ p.op = op := by
  have hall : ∀ q ∈ createModelProcedures schema m,
      (q.2 : Procedure).modelName = m ∧ q.2.op = q.1 := by
    intro q hq
    fin_cases hq <;> exact ⟨rfl, rfl⟩
  exact hall (op, p) hp

/-- C3: for every endpoint of a model's sub-router and every
validator-accepted input, a missing accessor property or a missing
operation method yields the server-side configuration error (a
`CallResult` distinct from the validation error) without the input
reaching any accessor method; when both are present, the endpoint
invokes the method on the input and returns its result or propagates
its failure unchanged. -/
theorem dispatch_contract (schema : SchemaDef) (modelName op : String)
    (p : Procedure) (hp : (op, p) ∈ createModelProcedures schema modelName)
    (db : DbAccessor) (input : Value)
    (hacc : accepts p.inputSchema input = true) :
    (lookupOpt db (uncapitalize modelName) = none →
      invokeEndpoint p db input =
        .configError
          ("Operation " ++ op ++ " not found on model " ++ modelName)) ∧
    (∀ model, lookupOpt db (uncapitalize modelName) = some model →
      lookupOpt model op = none →
      invokeEndpoint p db input =
        .configError
          ("Operation " ++ op ++ " not found on model " ++ modelName)) ∧
    (∀ model method,
      lookupOpt db (uncapitalize modelName) = some model →
      lookupOpt model op = some method →
      invokeEndpoint p db input =
        match method input with
        | .ok r => .ok r
        | .error e => .accessorFailure e) ∧
    (∀ msg, CallResult.configError msg ≠ CallResult.validationError) := by
  obtain ⟨hpm, hpo⟩ := mem_procedures_fields hp
  have hinv : invokeEndpoint p db input = runHandler p db input := by
    rw [invokeEndpoint, hacc]
    rfl
  refine ⟨?_, ?_, ?_, fun msg h => CallResult.noConfusion h⟩
  · intro hnone
    rw [hinv, runHandler, hpm, hpo, hnone]
  · intro model hmodel hnone
    rw [hinv, runHandler, hpm, hpo]
    simp only [hmodel, hnone]
  · intro model method hmodel hmethod
    rw [hinv, runHandler, hpm, hpo]
    simp only [hmodel, hmethod]

/-- Witness for `dispatch_contract`: the `User.findMany` endpoint of
the test schema, invoked on an accessor with no `user` property and
the (validator-accepted) omitted input, yields the configuration
error. -/
theorem dispatch_contract_witness :
    invokeEndpoint (createHandler testSchema "User" "findMany" true)
      [] .vUndefined =
      .configError "Operation findMany not found on model User" :=
  (dispatch_contract testSchema "User" "findMany"
    (createHandler testSchema "User" "findMany" true)
    (List.mem_cons_self _ _) [] .vUndefined (by decide)).1 rfl

theorem containsKey_iff_mem_keys {α : Type} {l : List (String × α)}
    {k : String} : containsKey l k = true ↔ k ∈ l.map Prod.fst := by
  induction l with
  | nil => simp [containsKey, lookupOpt]
  | cons hd tl ih =>
    obtain ⟨k', v'⟩ := hd
    rw [containsKey_cons]
    by_cases hk : k' = k
    · subst hk; simp
    · rw [if_neg hk]
      simp [ih, Ne.symm hk]

/-- A `.optional().nullable()` validator accepts omission. -/
theorem accepts_nullable_optional_undef (b : ZodSchema) :
    accepts (.zNullable (.zOptional b)) .vUndefined = true := by
  rw [accepts_nullable, accepts_optional]
  rfl

theorem updateDataShape_cons (k : String) (fd : FieldDef)
    (tl : List (String × FieldDef)) :
    updateDataShape ((k, fd) :: tl) =
      if fd.id then updateDataShape tl
      else if fd.isRelation then
        (k, updateRelationEntry) :: updateDataShape tl
      else
        (k, getZodTypeForField fd.type true fd.array) ::
          updateDataShape tl := by
  simp only [updateDataShape, List.filterMap_cons]
  by_cases hid : fd.id
  · simp [hid]
  · by_cases hrel : fd.isRelation <;> simp [hid, hrel]

theorem keys_updateDataShape_subset
    {fields : List (String × FieldDef)} :
    ∀ x ∈ (updateDataShape fields).map Prod.fst,
      x ∈ fields.map Prod.fst := by
  induction fields with
  | nil => simp [updateDataShape]
  | cons hd tl ih =>
    obtain ⟨k, fd⟩ := hd
    intro x hx
    rw [updateDataShape_cons] at hx
    by_cases hid : fd.id
    · rw [if_pos hid] at hx
      exact List.mem_cons_of_mem _ (ih x hx)
    · rw [if_neg hid] at hx
      have hstep :
          ∀ sch, x ∈ (((k, sch) :: updateDataShape tl).map Prod.fst) →
            x ∈ ((k, fd) :: tl).map Prod.fst := by
        intro sch hmem
        rcases List.mem_cons.mp hmem with h | h
        · exact List.mem_cons.mpr (Or.inl h)
        · exact List.mem_cons_of_mem _ (ih x h)
      by_cases hrel : fd.isRelation
      · rw [if_pos hrel] at hx; exact hstep _ hx
      · rw [if_neg hrel] at hx; exact hstep _ hx

/-- Every field entry of the update-data shape tolerates omission:
relation entries are optional and scalar entries are
`.optional().nullable()`. -/
theorem updateDataShape_entries_undef
    {fields : List (String × FieldDef)} :
    ∀ p ∈ updateDataShape fields, accepts p.2 .vUndefined = true := by
  induction fields with
  | nil => simp [updateDataShape]
  | cons hd tl ih =>
    obtain ⟨k, fd⟩ := hd
    intro p hp
    rw [updateDataShape_cons] at hp
    by_cases hid : fd.id
    · rw [if_pos hid] at hp
      exact ih p hp
    · rw [if_neg hid] at hp
      by_cases hrel : fd.isRelation
      · rw [if_pos hrel] at hp
        rcases List.mem_cons.mp hp with h | h
        · subst h
          show accepts updateRelationEntry .vUndefined = true
          decide
        · exact ih p h
      · rw [if_neg hrel] at hp
        rcases List.mem_cons.mp hp with h | h
        · subst h
          exact accepts_nullable_optional_undef _
        · exact ih p h

/-- C1 (amended): the update-input shape excludes exactly the
identifier fields — a non-identifier field stays in the shape even if
it has a default or is an auto-updated timestamp — and supplying an
identifier field in update input is passed through unvalidated (any
value is accepted). -/
theorem update_input_excludes_only_ids (schema : SchemaDef)
    (m : String) (model : ModelDef)
    (hm : lookupOpt schema.models m = some model)
    (hnd : (model.fields.map Prod.fst).Nodup)
    (f : String) (fd : FieldDef) (hf : (f, fd) ∈ model.fields) :
    (containsKey (updateDataShape model.fields) f = false ↔
      fd.id = true) ∧
    (fd.id = true → ∀ v,
      accepts (createUpdateDataSchema schema m) (.vObj [(f, v)])
        = true) := by
  have hgen :
      ∀ (fields : List (String × FieldDef)),
        (fields.map Prod.fst).Nodup → (f, fd) ∈ fields →
        (containsKey (updateDataShape fields) f = false ↔
          fd.id = true) := by
    intro fields
    induction fields with
    | nil => intro _ hf'; simp at hf'
    | cons hd tl ih =>
      obtain ⟨k, kfd⟩ := hd
      intro hnd' hf'
      simp only [List.map_cons, List.nodup_cons] at hnd'
      rw [updateDataShape_cons]
      rcases List.mem_cons.mp hf' with heq | hmem
      · injection heq with h1 h2
        subst h1
        subst h2
        by_cases hid : fd.id
        · rw [if_pos hid]
          refine ⟨fun _ => hid, fun _ => ?_⟩
          cases hcc : containsKey (updateDataShape tl) f with
          | false => rfl
          | true =>
            exact absurd
              (keys_updateDataShape_subset f
                (containsKey_iff_mem_keys.mp hcc)) hnd'.1
        · rw [if_neg hid]
          by_cases hrel : fd.isRelation
          · rw [if_pos hrel, containsKey_cons, if_pos rfl]
            simp [hid]
          · rw [if_neg hrel, containsKey_cons, if_pos rfl]
            simp [hid]
      · have hne : k ≠ f := fun h =>
          hnd'.1 (h ▸ List.mem_map_of_mem Prod.fst hmem)
        have ihh := ih hnd'.2 hmem
        by_cases hid : kfd.id
        · rw [if_pos hid]; exact ihh
        · rw [if_neg hid]
          by_cases hrel : kfd.isRelation
          · rw [if_pos hrel, containsKey_cons, if_neg hne]; exact ihh
          · rw [if_neg hrel, containsKey_cons, if_neg hne]; exact ihh
  have hmain := hgen model.fields hnd hf
  refine ⟨hmain, fun hid v => ?_⟩
  simp only [createUpdateDataSchema, hm]
  apply accepts_singleObj
  · exact updateDataShape_entries_undef
  · intro p hp hpk
    exfalso
    have hc : containsKey (updateDataShape model.fields) f = true :=
      containsKey_iff_mem_keys.mpr
        (hpk ▸ List.mem_map_of_mem Prod.fst hp)
    rw [hmain.mpr hid] at hc
    exact Bool.false_ne_true hc

/-- Witness for `update_input_excludes_only_ids`: in the test schema's
`User` model, `id` is absent from the update shape and
`{ id: 7 }` is accepted (passed through). -/
theorem update_input_excludes_only_ids_witness :
    containsKey (updateDataShape userModel.fields) "id" = false ∧
    accepts (createUpdateDataSchema testSchema "User")
      (.vObj [("id", .vNum 7)]) = true := by
  have h := update_input_excludes_only_ids testSchema "User" userModel
    (by decide) (by decide) "id"
    { type := "String", id := true, hasDefault := true } (by decide)
  exact ⟨h.1.mpr rfl, h.2 rfl (.vNum 7)⟩

/-- C1 counterexample: in the `User` model, `createdAt` has a default
and `updatedAt` is an auto-updated timestamp, yet both remain in the
update-input shape, and supplying `createdAt` is validated (a number
is rejected) rather than passed through — refuting the claim that
defaulted and auto-updated fields are excluded entirely. -/
theorem update_input_excludes_defaults_counterexample :
    lookupOpt userModel.fields "createdAt" =
      some { type := "DateTime", hasDefault := true } ∧
    containsKey (updateDataShape userModel.fields) "createdAt"
      = true ∧
    containsKey (updateDataShape userModel.fields) "updatedAt"
      = true ∧
    accepts (createUpdateDataSchema testSchema "User")
      (.vObj [("createdAt", .vNum 5)]) = false := by decide

/-! ## C4: optionality of non-relation fields in create input -/

/-- The scalar type tags whose generated base validator actually
rejects `undefined` (every recognized tag except `Json`, which maps to
the all-accepting `z.any()`). -/
def strictScalarTypes : List String :=
  ["String", "Int", "Float", "BigInt", "Boolean", "DateTime", "Bytes",
   "Decimal"]

theorem getZodTypeForField_optional_undef (t : String) (a : Bool) :
    accepts (getZodTypeForField t true a) .vUndefined = true :=
  accepts_nullable_optional_undef _

theorem getZodTypeForField_required_undef {t : String}
    (ht : t ∈ strictScalarTypes) (a : Bool) :
    accepts (getZodTypeForField t false a) .vUndefined = false := by
  fin_cases ht <;> cases a <;> decide

/-- C4 (amended): for every non-relation field of a strictly-typed
scalar tag, the create-input entry accepts omission iff the field is
marked optional, has a default, is an id, is an auto-updated
timestamp, or is a foreign key (for `Json` and unrecognized tags the
entry is `z.any()` and always tolerates omission, breaking the
only-if direction); the minimal-create scenario holds for `User`. -/
theorem create_optional_iff_flags (fields : List (String × FieldDef))
    (f : String) (fd : FieldDef) (hf : (f, fd) ∈ fields)
    (hr : fd.isRelation = false) (ht : fd.type ∈ strictScalarTypes) :
    (f, createScalarEntry fd) ∈ createDataShape fields ∧
    (accepts (createScalarEntry fd) .vUndefined =
      (fd.optional || fd.hasDefault || fd.id || fd.updatedAt ||
        fd.isForeignKey)) ∧
    accepts (createCreateDataSchema testSchema "User")
      (.vObj [("email", .vStr "a@b.com")]) = true ∧
    accepts (createCreateDataSchema testSchema "User") (.vObj [])
      = false := by
  refine ⟨?_, ?_, by decide, by decide⟩
  · have : (fun p : String × FieldDef =>
        if p.2.isRelation then (p.1, createRelationEntry)
        else (p.1, createScalarEntry p.2)) (f, fd) =
          (f, createScalarEntry fd) := by
      simp [hr]
    exact this ▸ List.mem_map_of_mem _ hf
  · simp only [createScalarEntry]
    cases h1 : fd.optional <;> cases h2 : fd.hasDefault <;>
      cases h3 : fd.id <;> cases h4 : fd.updatedAt <;>
      cases h5 : fd.isForeignKey <;>
      simp only [h1, h2, h3, h4, h5, Bool.false_or, Bool.true_or,
        Bool.or_false, Bool.or_true, if_true, if_false] <;>
      first
        | exact getZodTypeForField_optional_undef fd.type fd.array
        | exact getZodTypeForField_required_undef ht fd.array

/-- Witness for `create_optional_iff_flags`: the required `email`
field of `User` — not optional in the create shape. -/
theorem create_optional_iff_flags_witness :
    ("email", createScalarEntry { type := "String" }) ∈
      createDataShape userModel.fields ∧
    (accepts (createScalarEntry { type := "String" }) .vUndefined =
      false) ∧
    accepts (createCreateDataSchema testSchema "User")
      (.vObj [("email", .vStr "a@b.com")]) = true ∧
    accepts (createCreateDataSchema testSchema "User") (.vObj [])
      = false := by
  have h := create_optional_iff_flags userModel.fields "email"
    { type := "String" } (by decide) rfl (by decide)
  exact h

/-- C4 counterexample: `Doc.payload` is a `Json` field with none of
the optionality marks, yet the create-input validator accepts input
omitting it (its entry is `z.any()`), refuting the only-if direction
of the claimed equivalence. -/
theorem create_optional_iff_counterexample :
    lookupOpt docModel.fields "payload" = some { type := "Json" } ∧
    accepts (createScalarEntry { type := "Json" }) .vUndefined
      = true ∧
    accepts (createCreateDataSchema testSchema "Doc")
      (.vObj [("title", .vStr "t")]) = true := by decide

/-! ## C5: unique-where -/

/-- The validator of one unique-where entry: simple unique fields get
their scalar type with `isOptional = true`, compound constraints an
optional passthrough object of their component fields. -/
def uniqueEntry (fields : List (String × FieldDef)) :
    UniqueFieldDef → ZodSchema
  | .simple fieldType => getZodTypeForField fieldType true false
  | .compound compoundFields =>
    .zOptional (.zObject (compoundShape fields compoundFields) true)

theorem uniqueWhereShape_eq_map (fields : List (String × FieldDef))
    (uniqueFields : List (String × UniqueFieldDef)) :
    uniqueWhereShape fields uniqueFields =
      uniqueFields.map fun p => (p.1, uniqueEntry fields p.2) := by
  apply List.map_congr_left
  intro p _
  cases p.2 <;> rfl

theorem assoc_eq_of_nodup {α : Type} {l : List (String × α)}
    {k : String} {a b : α} (hnd : (l.map Prod.fst).Nodup)
    (h1 : (k, a) ∈ l) (h2 : (k, b) ∈ l) : a = b := by
  induction l with
  | nil => simp at h1
  | cons hd tl ih =>
    obtain ⟨k', v'⟩ := hd
    simp only [List.map_cons, List.nodup_cons] at hnd
    rcases List.mem_cons.mp h1 with he1 | hm1 <;>
      rcases List.mem_cons.mp h2 with he2 | hm2
    · injection he1 with e1 e2
      injection he2 with e3 e4
      rw [e2, e4]
    · injection he1 with e1 e2
      exact absurd (e1 ▸ List.mem_map_of_mem Prod.fst hm2) hnd.1
    · injection he2 with e1 e2
      exact absurd (e1 ▸ List.mem_map_of_mem Prod.fst hm1) hnd.1
    · exact ih hnd.2 hm1 hm2

theorem uniqueWhereShape_entries_undef
    (fields : List (String × FieldDef))
    (uniqueFields : List (String × UniqueFieldDef)) :
    ∀ p ∈ uniqueWhereShape fields uniqueFields,
      accepts p.2 .vUndefined = true := by
  rw [uniqueWhereShape_eq_map]
  intro p hp
  obtain ⟨q, _, rfl⟩ := List.mem_map.mp hp
  cases q.2 with
  | simple fieldType => exact accepts_nullable_optional_undef _
  | compound compoundFields =>
    show accepts (.zOptional _) .vUndefined = true
    rw [accepts_optional]
    rfl

/-- C5 (amended): the unique-where validator accepts an object
supplying any single declared unique constraint whose value its entry
validator accepts (simple unique fields as their scalar type,
nullable; compound constraints as an inner object of their component
fields); but it performs no rejection of undeclared keys — the object
is passthrough and all entries are optional. -/
theorem unique_where_accepts_single (schema : SchemaDef) (m : String)
    (model : ModelDef) (hm : lookupOpt schema.models m = some model)
    (hnd : (model.uniqueFields.map Prod.fst).Nodup)
    (u : String) (ud : UniqueFieldDef)
    (hu : (u, ud) ∈ model.uniqueFields) (v : Value)
    (hv : accepts (uniqueEntry model.fields ud) v = true) :
    accepts (createUniqueWhereSchema schema m) (.vObj [(u, v)])
      = true := by
  simp only [createUniqueWhereSchema, hm]
  apply accepts_singleObj
  · exact uniqueWhereShape_entries_undef _ _
  · intro p hp hpk
    rw [uniqueWhereShape_eq_map] at hp
    obtain ⟨q, hq, rfl⟩ := List.mem_map.mp hp
    obtain ⟨qk, qd⟩ := q
    simp only at hpk ⊢
    subst hpk
    rw [assoc_eq_of_nodup hnd hq hu]
    exact hv

/-- Witness for `unique_where_accepts_single`: `{ id: "123" }` and
`{ email: "a@b.com" }` are accepted for `User`, and the compound
constraint `{ scope_key: { scope, key } }` is accepted for `Tag`. -/
theorem unique_where_accepts_single_witness :
    accepts (createUniqueWhereSchema testSchema "User")
      (.vObj [("id", .vStr "123")]) = true ∧
    accepts (createUniqueWhereSchema testSchema "User")
      (.vObj [("email", .vStr "a@b.com")]) = true ∧
    accepts (createUniqueWhereSchema testSchema "Tag")
      (.vObj [("scope_key",
        .vObj [("scope", .vStr "s"), ("key", .vStr "k")])]) = true :=
  ⟨unique_where_accepts_single testSchema "User" userModel (by decide)
      (by decide) "id" (.simple "String") (by decide) _ (by decide),
   unique_where_accepts_single testSchema "User" userModel (by decide)
      (by decide) "email" (.simple "String") (by decide) _
      (by decide),
   unique_where_accepts_single testSchema "Tag" tagModel (by decide)
      (by decide) "scope_key" (.compound ["scope", "key"]) (by decide)
      _ (by decide)⟩

/-- C5 counterexample: `name` is not declared unique on `User`, yet
`uniqueWhere.parse({ name: "x" })` succeeds — the unknown key passes
through and every declared entry tolerates omission — refuting the
claimed rejection. -/
theorem unique_where_counterexample :
    containsKey userModel.uniqueFields "name" = false ∧
    accepts (createUniqueWhereSchema testSchema "User")
      (.vObj [("name", .vStr "x")]) = true := by decide

/-! ## C6: include -/

theorem accepts_optional_bool_any (v : Value) :
    accepts (.zOptional (.zUnion2 .zBoolean .zAny)) v = true := by
  rw [accepts_optional, accepts_union2]
  simp [accepts_any]

theorem accepts_obj_of_entries
    (shape : List (String × ZodSchema)) (fs : List (String × Value))
    (h : ∀ p ∈ shape, accepts p.2 (lookupD fs p.1) = true) :
    accepts (.zObject shape true) (.vObj fs) = true := by
  rw [accepts_object_obj, List.all_eq_true]
  exact h

theorem includeShape_cons (k : String) (fd : FieldDef)
    (tl : List (String × FieldDef)) :
    includeShape ((k, fd) :: tl) =
      if fd.isRelation then
        (k, ZodSchema.zOptional (.zUnion2 .zBoolean .zAny)) ::
          includeShape tl
      else includeShape tl := by
  simp only [includeShape, List.filterMap_cons]
  by_cases hrel : fd.isRelation <;> simp [hrel]

theorem keys_includeShape_subset
    {fields : List (String × FieldDef)} :
    ∀ x ∈ (includeShape fields).map Prod.fst,
      x ∈ fields.map Prod.fst := by
  induction fields with
  | nil => simp [includeShape]
  | cons hd tl ih =>
    obtain ⟨k, fd⟩ := hd
    intro x hx
    rw [includeShape_cons] at hx
    by_cases hrel : fd.isRelation
    · rw [if_pos hrel] at hx
      rcases List.mem_cons.mp hx with h | h
      · exact List.mem_cons.mpr (Or.inl h)
      · exact List.mem_cons_of_mem _ (ih x h)
    · rw [if_neg hrel] at hx
      exact List.mem_cons_of_mem _ (ih x hx)

/-- C6 (amended): the include-input validator's shape contains exactly
the relation fields of the model; however it rejects nothing — for a
model present in the schema it accepts every object input (each
declared entry is `boolean ∪ any` and unknown keys, including
non-relation field names mapped to `true`, pass through). -/
theorem include_relations_only (schema : SchemaDef) (m : String)
    (model : ModelDef) (hm : lookupOpt schema.models m = some model)
    (hnd : (model.fields.map Prod.fst).Nodup)
    (f : String) (fd : FieldDef) (hf : (f, fd) ∈ model.fields) :
    (containsKey (includeShape model.fields) f = true ↔
      fd.isRelation = true) ∧
    (∀ fs, accepts (createIncludeSchema schema m) (.vObj fs)
      = true) := by
  constructor
  · have hgen :
        ∀ (fields : List (String × FieldDef)),
          (fields.map Prod.fst).Nodup → (f, fd) ∈ fields →
          (containsKey (includeShape fields) f = true ↔
            fd.isRelation = true) := by
      intro fields
      induction fields with
      | nil => intro _ hf'; simp at hf'
      | cons hd tl ih =>
        obtain ⟨k, kfd⟩ := hd
        intro hnd' hf'
        simp only [List.map_cons, List.nodup_cons] at hnd'
        rw [includeShape_cons]
        rcases List.mem_cons.mp hf' with heq | hmem
        · injection heq with h1 h2
          subst h1
          subst h2
          by_cases hrel : fd.isRelation
          · rw [if_pos hrel, containsKey_cons, if_pos rfl]
            simp [hrel]
          · rw [if_neg hrel]
            simp only [hrel, Bool.false_eq_true, iff_false]
            intro hc
            exact hnd'.1
              (keys_includeShape_subset f
                (containsKey_iff_mem_keys.mp hc))
        · have hne : k ≠ f := fun h =>
            hnd'.1 (h ▸ List.mem_map_of_mem Prod.fst hmem)
          have ihh := ih hnd'.2 hmem
          by_cases hrel : kfd.isRelation
          · rw [if_pos hrel, containsKey_cons, if_neg hne]; exact ihh
          · rw [if_neg hrel]; exact ihh
    exact hgen model.fields hnd hf
  · intro fs
    simp only [createIncludeSchema, hm]
    rw [accepts_optional]
    rw [accepts_obj_of_entries]
    · simp
    · intro p hp
      simp only [includeShape, List.mem_filterMap] at hp
      obtain ⟨⟨k, kfd⟩, hmem, heq⟩ := hp
      by_cases hrel : kfd.isRelation
      · simp only [hrel, if_true, Option.some.injEq] at heq
        subst heq
        exact accepts_optional_bool_any _
      · simp [hrel] at heq

/-- Witness for `include_relations_only`: the `posts` relation of
`User` is in the include shape, and `{ posts: true }` is accepted. -/
theorem include_relations_only_witness :
    containsKey (includeShape userModel.fields) "posts" = true ∧
    accepts (createIncludeSchema testSchema "User")
      (.vObj [("posts", .vBool true)]) = true := by
  have h := include_relations_only testSchema "User" userModel
    (by decide) (by decide) "posts"
    { type := "Post", array := true, isRelation := true } (by decide)
  exact ⟨h.1.mpr rfl, h.2 [("posts", .vBool true)]⟩

/-- C6 counterexample: `email` is a non-relation field of `User`
(excluded from the include shape, and the select validator types it
`boolean ∪ any`, not boolean-only), yet
`include.parse({ email: true })` succeeds — the include validator
rejects nothing — refuting the claimed rejection. -/
theorem include_counterexample :
    lookupOpt userModel.fields "email" = some { type := "String" } ∧
    containsKey (includeShape userModel.fields) "email" = false ∧
    accepts (createIncludeSchema testSchema "User")
      (.vObj [("email", .vBool true)]) = true := by decide

/-! ## C8: create/where round-trip -/

theorem partialShape_entries_undef (l : List (String × ZodSchema)) :
    ∀ p ∈ partialShape l, accepts p.2 .vUndefined = true := by
  intro p hp
  obtain ⟨q, _, rfl⟩ := List.mem_map.mp hp
  show accepts (.zOptional _) _ = true
  rw [accepts_optional]
  rfl

theorem mem_mergeShape {a b : List (String × ZodSchema)}
    {p : String × ZodSchema} (hp : p ∈ mergeShape a b) :
    (∃ q ∈ a, p.1 = q.1 ∧ p.2 = (lookupOpt b q.1).getD q.2) ∨
      p ∈ b := by
  rcases List.mem_append.mp hp with h | h
  · obtain ⟨q, hq, rfl⟩ := List.mem_map.mp h
    exact Or.inl ⟨q, hq, rfl, rfl⟩
  · exact Or.inr (List.mem_filter.mp h).1

theorem keys_whereShape (fields : List (String × FieldDef)) :
    (whereShape fields).map Prod.fst = fields.map Prod.fst := by
  simp only [whereShape, List.map_map]
  apply List.map_congr_left
  intro p _
  by_cases h : p.2.isRelation <;> simp [h]

/-- The where-shape entry of a non-relation field. -/
def whereScalarEntry (fd : FieldDef) : ZodSchema :=
  .zOptional (.zUnion3 (getZodTypeForField fd.type false false) .zNull
    (whereFilterObject (getZodTypeForField fd.type false false)))

theorem mem_whereShape_of_mem {fields : List (String × FieldDef)}
    {f : String} {fd : FieldDef} (hf : (f, fd) ∈ fields)
    (hr : fd.isRelation = false) :
    (f, whereScalarEntry fd) ∈ whereShape fields := by
  have : (fun p : String × FieldDef =>
      if p.2.isRelation then (p.1, ZodSchema.zOptional .zAny)
      else
        (p.1, ZodSchema.zOptional
          (.zUnion3 (getZodTypeForField p.2.type false false) .zNull
            (whereFilterObject
              (getZodTypeForField p.2.type false false)))))
      (f, fd) = (f, whereScalarEntry fd) := by
    simp [hr, whereScalarEntry]
  exact this ▸ List.mem_map_of_mem _ hf

/-- C8 (amended): for every required, non-array, non-foreign-key
scalar field, any value accepted by the create-data entry is accepted
by the where validator when resubmitted as the field's direct
(equality) value.  (Array-typed scalar fields break the round-trip:
the where schema builds the base type with `isArray = false`.) -/
theorem roundtrip_create_where (schema : SchemaDef) (m : String)
    (model : ModelDef) (hm : lookupOpt schema.models m = some model)
    (hnd : (model.fields.map Prod.fst).Nodup)
    (f : String) (fd : FieldDef) (hf : (f, fd) ∈ model.fields)
    (hr : fd.isRelation = false) (ha : fd.array = false)
    (hopt : fd.optional = false) (hdef : fd.hasDefault = false)
    (hid : fd.id = false) (hupd : fd.updatedAt = false)
    (hfk : fd.isForeignKey = false)
    (v : Value) (hv : accepts (createScalarEntry fd) v = true) :
    accepts (createWhereSchema schema m) (.vObj [(f, v)]) = true := by
  have hbase :
      createScalarEntry fd = getZodTypeForField fd.type false false := by
    simp [createScalarEntry, hopt, hdef, hid, hupd, hfk, ha]
  have hwv : accepts (whereScalarEntry fd) v = true := by
    rw [whereScalarEntry, accepts_optional, accepts_union3]
    rw [hbase] at hv
    simp [hv]
  have hndw : ((whereShape model.fields).map Prod.fst).Nodup := by
    rw [keys_whereShape]; exact hnd
  have hwmem := mem_whereShape_of_mem hf hr
  simp only [createWhereSchema, hm]
  apply accepts_singleObj
  · exact partialShape_entries_undef _
  · intro p hp hpk
    obtain ⟨q, hq, rfl⟩ := List.mem_map.mp hp
    obtain ⟨qk, qs⟩ := q
    simp only at hpk ⊢
    rw [hpk] at hq
    rw [accepts_optional]
    suffices hqs : accepts qs v = true by simp [hqs]
    rcases mem_mergeShape hq with ⟨w, hw, hwk, hwval⟩ | hqmem
    · simp only at hwk hwval
      have hck : containsKey (whereShape model.fields) f = true :=
        containsKey_iff_mem_keys.mpr
          (List.mem_map_of_mem Prod.fst hwmem)
      rw [containsKey] at hck
      obtain ⟨e, he⟩ := Option.isSome_iff_exists.mp hck
      have he2 : e = whereScalarEntry fd :=
        assoc_eq_of_nodup hndw (lookupOpt_mem he) hwmem
      rw [hwval, ← hwk, he, Option.getD_some, he2]
      exact hwv
    · have hqe : qs = whereScalarEntry fd :=
        assoc_eq_of_nodup hndw hqmem hwmem
      rw [hqe]
      exact hwv

/-- Witness for `roundtrip_create_where`: `"x"` is accepted for the
required `email` field in create data and in a where equality
filter. -/
theorem roundtrip_create_where_witness :
    accepts (createWhereSchema testSchema "User")
      (.vObj [("email", .vStr "x")]) = true :=
  roundtrip_create_where testSchema "User" userModel (by decide)
    (by decide) "email" { type := "String" } (by decide) rfl rfl rfl
    rfl rfl rfl rfl (.vStr "x") (by decide)

/-- C8 counterexample: `Tag.names` is a required scalar (`String`
array) field; `["a"]` is accepted by createData for it, but the where
validator rejects `{ names: ["a"] }` — the where schema types the
field as a bare `String` — refuting the round-trip for array-typed
scalar fields. -/
theorem roundtrip_counterexample :
    lookupOpt tagModel.fields "names" =
      some { type := "String", array := true } ∧
    accepts (createCreateDataSchema testSchema "Tag")
      (.vObj [("names", .vArr [.vStr "a"]), ("scope", .vStr "s"),
        ("key", .vStr "k")]) = true ∧
    accepts (createWhereSchema testSchema "Tag")
      (.vObj [("names", .vArr [.vStr "a"])]) = false := by decide

/-! ## C9: absent model names -/

/-- C9: for every model name absent from the schema, each
validator-factory function returns its pass-through validator instead
of failing — the empty passthrough object (accepting every object
input) for the six object-shaped factories, and `z.any()` (accepting
everything) for `orderBy`; every factory is a total function, so
generation never throws. -/
theorem absent_model_permissive (schema : SchemaDef) (m : String)
    (hm : lookupOpt schema.models m = none) :
    createWhereSchema schema m = .zObject [] true ∧
    createCreateDataSchema schema m = .zObject [] true ∧
    createUpdateDataSchema schema m = .zObject [] true ∧
    createUniqueWhereSchema schema m = .zObject [] true ∧
    createSelectSchema schema m = .zObject [] true ∧
    createIncludeSchema schema m = .zObject [] true ∧
    createOrderBySchema schema m = .zAny ∧
    (∀ fs, accepts (.zObject ([] : List (String × ZodSchema)) true)
      (.vObj fs) = true) ∧
    (∀ v, accepts .zAny v = true) := by
  refine ⟨?_, ?_, ?_, ?_, ?_, ?_, ?_, fun fs => ?_, fun v => rfl⟩
  · simp only [createWhereSchema, hm]
  · simp only [createCreateDataSchema, hm]
  · simp only [createUpdateDataSchema, hm]
  · simp only [createUniqueWhereSchema, hm]
  · simp only [createSelectSchema, hm]
  · simp only [createIncludeSchema, hm]
  · simp only [createOrderBySchema, hm]
  · rw [accepts_object_obj]
    rfl

/-- Witness for `absent_model_permissive` at a name absent from the
test schema. -/
theorem absent_model_permissive_witness :
    createWhereSchema testSchema "Missing" = .zObject [] true ∧
    accepts (createWhereSchema testSchema "Missing")
      (.vObj [("anything", .vNum 1)]) = true ∧
    accepts (createOrderBySchema testSchema "Missing") (.vStr "x")
      = true := by
  have h := absent_model_permissive testSchema "Missing" (by decide)
  refine ⟨h.1, ?_, ?_⟩
  · rw [h.1]
    exact h.2.2.2.2.2.2.2.1 [("anything", .vNum 1)]
  · rw [h.2.2.2.2.2.2.1]
    exact h.2.2.2.2.2.2.2.2 (.vStr "x")

/-! ## C10: select accepts everything -/

/-- C10: for every model present in the schema, the select validator
declares every field — scalar or relation — as `boolean ∪ any`
(optional), keeps the object pass-through, and is itself optional; it
therefore accepts the omitted input and every object input whatsoever,
including non-boolean values for scalar fields and undeclared keys. -/
theorem select_accepts_everything (schema : SchemaDef) (m : String)
    (model : ModelDef) (hm : lookupOpt schema.models m = some model) :
    (∀ p ∈ selectShape model.fields,
      p.2 = .zOptional (.zUnion2 .zBoolean .zAny)) ∧
    (selectShape model.fields).map Prod.fst =
      model.fields.map Prod.fst ∧
    accepts (createSelectSchema schema m) .vUndefined = true ∧
    (∀ fs, accepts (createSelectSchema schema m) (.vObj fs)
      = true) := by
  refine ⟨?_, ?_, ?_, fun fs => ?_⟩
  · intro p hp
    obtain ⟨q, _, rfl⟩ := List.mem_map.mp hp
    rfl
  · simp [selectShape, List.map_map]
  · simp only [createSelectSchema, hm]
    rw [accepts_optional]
    rfl
  · simp only [createSelectSchema, hm]
    rw [accepts_optional]
    rw [accepts_obj_of_entries]
    · simp
    · intro p hp
      obtain ⟨q, _, rfl⟩ := List.mem_map.mp hp
      exact accepts_optional_bool_any _

/-- Witness for `select_accepts_everything`: on `User`, select accepts
omission, a non-boolean scalar selection, and an undeclared key. -/
theorem select_accepts_everything_witness :
    accepts (createSelectSchema testSchema "User") .vUndefined
      = true ∧
    accepts (createSelectSchema testSchema "User")
      (.vObj [("email", .vStr "nonbool")]) = true ∧
    accepts (createSelectSchema testSchema "User")
      (.vObj [("unknownKey", .vNum 3)]) = true := by
  have h := select_accepts_everything testSchema "User" userModel
    (by decide)
  exact ⟨h.2.2.1, h.2.2.2 [("email", .vStr "nonbool")],
    h.2.2.2 [("unknownKey", .vNum 3)]⟩

end ZenTrpc
